import Mathlib

/-!
Verification development for the PaperMirror rewrite pipeline.

This file gives a shallow embedding in Lean 4 of the pure core of the
pipeline — text normalization and sentence splitting
(`utils/analysis/text`), the tokenizer / reconstructor / validator
(`utils/rewrite/tokenize.ts`), the document segmenter and chunk merger
(`services/workflowService.ts`), the fidelity analysis
(`utils/analysis/fidelity.ts`), the mirror-score computation
(`utils/analysis/mirrorScore`), and the adaptive batch scheduler of
`services/workflowService.ts` — and proves or refutes the specified
properties about it.

Modelling conventions:
* a JavaScript string is modelled as `List Char` (`Str`);
* JavaScript numbers are modelled as `Nat`/`Int` where the source only
  ever holds integers (indices, sizes, counts, durations) and as `Rat`
  where the source computes ratios (retention rates, scores);
* the handful of regular expressions the source uses are implemented as
  dedicated character-list matchers with the exact JS semantics
  (leftmost scan, ordered alternation, greedy quantifiers with the
  backtracking behaviour the concrete pattern admits);
* the asynchronous rewriting service is modelled as an oracle
  `Nat → CallResult` giving the outcome of the n-th service call, so all
  theorems quantify over every possible sequence of service outcomes;
* JS `while` loops that are not structurally recursive are written with
  an explicit fuel argument that is initialised to an upper bound on the
  number of iterations (each iteration consumes at least one character /
  one array element, so fuel equal to the input length is exact: the
  fuel-zero branch coincides with the loop's own exit condition).
-/

namespace PaperMirror

/-- A JavaScript string, modelled as a list of characters. -/
abbrev Str := List Char

/-! ### Character classes (JS semantics) -/

/-- JS whitespace as used by `String.trim` and the regex class `\s`
(restricted to the code points that can occur in this pipeline's data:
ASCII blanks, NBSP, ideographic space, BOM). -/
def isJsWS (c : Char) : Bool :=
  c = ' ' || c = '\t' || c = '\n' || c = '\r' || c = '\u000B' || c = '\u000C' ||
  c = '\u00A0' || c = '\u3000' || c = '\uFEFF'

/-- The regex class `\d`. -/
def isDigitCh (c : Char) : Bool := '0' ≤ c && c ≤ '9'

/-- The regex class `[A-Z]`. -/
def isUpperCh (c : Char) : Bool := 'A' ≤ c && c ≤ 'Z'

/-- The regex class `[a-z]`. -/
def isLowerCh (c : Char) : Bool := 'a' ≤ c && c ≤ 'z'

/-- The regex class `[a-zA-Z]`. -/
def isLetterCh (c : Char) : Bool := isUpperCh c || isLowerCh c

/-- The regex class `[a-zA-Z0-9]`. -/
def isAlnumCh (c : Char) : Bool := isLetterCh c || isDigitCh c

/-- The regex class `\w` (`[A-Za-z0-9_]`), used by `\b` word boundaries. -/
def isWordCh (c : Char) : Bool := isAlnumCh c || c = '_'

/-! ### Basic string operations (JS semantics) -/

/-- `String.prototype.trim`. -/
def trimStr (s : Str) : Str :=
  ((s.dropWhile isJsWS).reverse.dropWhile isJsWS).reverse

/-- Does `p` occur at the start of `s`? (`String.prototype.startsWith`.) -/
def startsWith : Str → Str → Bool
  | _, [] => true
  | [], _ :: _ => false
  | c :: s, p :: ps => c = p && startsWith s ps

/-- Case-insensitive variant of `startsWith` (regex `i` flag: compare
after ASCII lower-casing, the only case folding relevant here). -/
def startsWithCI : Str → Str → Bool
  | _, [] => true
  | [], _ :: _ => false
  | c :: s, p :: ps => c.toLower = p.toLower && startsWithCI s ps

/-- `String.prototype.includes`: does `needle` occur in `hay`? -/
def containsSub : Str → Str → Bool
  | [], needle => needle.isEmpty
  | c :: rest, needle => startsWith (c :: rest) needle || containsSub rest needle

/-- Index of the last occurrence of character `c` in `l`
(`String.prototype.lastIndexOf` for a single character), as an `Option`. -/
def lastIdxOf (l : Str) (c : Char) : Option Nat :=
  (l.foldl (fun (acc : Option Nat × Nat) ch =>
    ((if ch = c then some acc.2 else acc.1), acc.2 + 1)) (none, 0)).1

/-- Length of the maximal run of characters satisfying `p` at the start
of `s` (a greedy `p*` / `p+` regex quantifier). -/
def runLen (p : Char → Bool) (s : Str) : Nat := (s.takeWhile p).length

/-! ### `utils/analysis/text`: `normalizeText` and `splitSentencesCN` -/

/-- `text.replace(/\r\n/g, '\n')`. -/
def replCRLF : Str → Str
  | [] => []
  | '\r' :: '\n' :: rest => '\n' :: replCRLF rest
  | c :: rest => c :: replCRLF rest

/-- `text.replace(/\r/g, '\n')`. -/
def replCR (s : Str) : Str := s.map (fun c => if c = '\r' then '\n' else c)

/-- `text.replace(/\n{3,}/g, '\n\n')`: in every maximal run of newlines,
keep the first two and drop the rest.  `n` counts the newlines
immediately preceding the current position (capped at 2). -/
def collapseNLAux : Str → Nat → Str
  | [], _ => []
  | c :: rest, n =>
    if c = '\n' then
      if n ≥ 2 then collapseNLAux rest n
      else '\n' :: collapseNLAux rest (n + 1)
    else c :: collapseNLAux rest 0

/-- `text.replace(/[ \t]+/g, ' ')`: every maximal run of blanks/tabs
becomes a single space.  `prev` records whether the previous character
was part of such a run. -/
def collapseWSAux : Str → Bool → Str
  | [], _ => []
  | c :: rest, prev =>
    if c = ' ' || c = '\t' then
      if prev then collapseWSAux rest true else ' ' :: collapseWSAux rest true
    else c :: collapseWSAux rest false

/-- `normalizeText` from `utils/analysis/text`: unify line breaks, cap
newline runs at 2, collapse horizontal whitespace, trim. -/
def normalizeText (s : Str) : Str :=
  trimStr (collapseWSAux (collapseNLAux (replCR (replCRLF s)) 0) false)

/-- `text.split(/(?<=[。？！])/)` (and the `，；` variant): split after
every delimiter character, keeping the delimiter with the preceding
segment; no empty segments are produced. -/
def splitAfterAux (delims : List Char) : Str → Str → List Str
  | [], cur => if cur = [] then [] else [cur.reverse]
  | c :: rest, cur =>
    if c ∈ delims then (c :: cur).reverse :: splitAfterAux delims rest []
    else splitAfterAux delims rest (c :: cur)

/-- Split after Chinese sentence-ending punctuation `。？！`. -/
def splitBySentenceEnders (s : Str) : List Str := splitAfterAux ['。', '？', '！'] s []

/-- Split after Chinese clause punctuation `，；`. -/
def splitByClausePunctuation (s : Str) : List Str := splitAfterAux ['，', '；'] s []

/-- Regex test `/^#+\s/`: one or more `#` followed by a whitespace. -/
def isHeadingStr (s : Str) : Bool :=
  match s with
  | '#' :: rest =>
    match (rest.dropWhile (fun c => c = '#')).head? with
    | some c => isJsWS c
    | none => false
  | _ => false

/-- A sentence as produced by `splitSentencesCN`: `{ text, index }`. -/
structure Sentence where
  text : Str
  index : Nat
deriving DecidableEq, Repr

/-- The filtering/indexing loop of `splitSentencesCN`. -/
def sentencesOfParts : List Str → Nat → List Sentence
  | [], _ => []
  | p :: rest, i =>
    let trimmed := trimStr p
    if trimmed = [] then sentencesOfParts rest i
    else if isHeadingStr trimmed then sentencesOfParts rest i
    else if trimmed.length < 2 then sentencesOfParts rest i
    else ⟨trimmed, i⟩ :: sentencesOfParts rest (i + 1)

/-- `splitSentencesCN` from `utils/analysis/text`. -/
def splitSentencesCN (s : Str) : List Sentence :=
  sentencesOfParts (splitBySentenceEnders (normalizeText s)) 0

/-! ### `services/config`: the batching constants -/

def INITIAL_BATCH_SIZE : Nat := 20
def MAX_BATCH_SIZE : Nat := 25
def SLOW_CALL_THRESHOLD_MS : Nat := 40000
def TARGET_FAST_MS : Nat := 15000
def MAX_RETRY_PER_BATCH : Nat := 2
def DEGRADATION_CHAIN : List Nat := [20, 10, 5, 1]
def MAX_SENTENCE_CHARS : Nat := 400
def FORCE_SPLIT_CHUNK_SIZE : Nat := 280

/-! ### `utils/rewrite/tokenize.ts`: tokenizer, reconstructor, validator -/

/-- One step of `forceSplit`'s break-point search: try the break
characters in source order (`，`, `、`, `；`, space, `,`, `;`) and return
`searchStart + idx + 1` for the first one that occurs in `segment`
(its last occurrence), as in the JS loop. -/
def breakPointIdx (segment : Str) (searchStart : Nat) : Option Nat :=
  match lastIdxOf segment '，' with
  | some i => some (searchStart + i + 1)
  | none =>
  match lastIdxOf segment '、' with
  | some i => some (searchStart + i + 1)
  | none =>
  match lastIdxOf segment '；' with
  | some i => some (searchStart + i + 1)
  | none =>
  match lastIdxOf segment ' ' with
  | some i => some (searchStart + i + 1)
  | none =>
  match lastIdxOf segment ',' with
  | some i => some (searchStart + i + 1)
  | none =>
  match lastIdxOf segment ';' with
  | some i => some (searchStart + i + 1)
  | none => none

/-- The `while (start < text.length)` loop of `forceSplit`, operating on
the remaining suffix of the text.  Every iteration consumes at least one
character, so fuel equal to the remaining length is exact. -/
def forceSplitAux (maxSize : Nat) : Nat → Str → List Str
  | 0, _ => []
  | fuel + 1, rem =>
    if rem = [] then []
    else
      let endR := min maxSize rem.length
      let endA :=
        if endR < rem.length then
          let searchStart := endR - min endR 50
          let segment := (rem.drop searchStart).take (endR - searchStart)
          match breakPointIdx segment searchStart with
          | some b => if b > 0 then b else endR
          | none => endR
        else endR
      let chunk := rem.take endA
      let rest := rem.drop endA
      (if trimStr chunk ≠ [] then [chunk] else []) ++ forceSplitAux maxSize fuel rest

/-- `forceSplit` from `tokenize.ts`. -/
def forceSplit (text : Str) (maxSize : Nat) : List Str :=
  if text.length ≤ maxSize then [text]
  else forceSplitAux maxSize text.length text

/-- `splitLongSentence` from `tokenize.ts`. -/
def splitLongSentence (text : Str) : List Str :=
  if text.length ≤ MAX_SENTENCE_CHARS then [text]
  else
    (splitByClausePunctuation text).flatMap (fun clause =>
      if clause.length > MAX_SENTENCE_CHARS then forceSplit clause FORCE_SPLIT_CHUNK_SIZE
      else [clause])

/-- `text.split(/\n\n+/)`: split on maximal runs of at least two
newlines.  The scanner state is `0` (normal), `1` (one pending newline
that may yet belong to the current part) or `2` (inside a separator run). -/
def splitParasAux : Str → Str → Nat → List Str
  | [], cur, st => if st = 1 then [('\n' :: cur).reverse] else [cur.reverse]
  | c :: rest, cur, st =>
    if st = 2 then
      if c = '\n' then splitParasAux rest cur 2
      else splitParasAux rest [c] 0
    else if c = '\n' then
      if st = 1 then cur.reverse :: splitParasAux rest [] 2
      else splitParasAux rest cur 1
    else
      if st = 1 then splitParasAux rest (c :: '\n' :: cur) 0
      else splitParasAux rest (c :: cur) 0

/-- `normalized.split(/\n\n+/)` in `tokenizeDocument`. -/
def splitParas (s : Str) : List Str := splitParasAux s [] 0

/-- A token of the rewrite pipeline: an indexed, rewritable sentence or
an immutable paragraph separator (`kind: 'sentence' | 'sep'`). -/
inductive Token where
  | sentence (index : Nat) (text : Str)
  | sep (text : Str)
deriving DecidableEq, Repr

/-- A sentence token `{ index, text }` as consumed by the scheduler. -/
structure SentenceTok where
  index : Nat
  text : Str
deriving DecidableEq, Repr

/-- A replacement `{ index, text }` as returned by the rewriting
service.  The service is untrusted, so the index is an arbitrary
integer. -/
structure Replacement where
  index : Int
  text : Str
deriving DecidableEq, Repr

/-- The inner emission loop shared by `tokenizeDocument`'s branches: for
each segment, trim it and emit a sentence token with the next index if
the trimmed text is non-empty. -/
def emitSegs : List Str → Nat → List Token × Nat
  | [], i => ([], i)
  | s :: rest, i =>
    let t := trimStr s
    if t = [] then emitSegs rest i
    else
      let p := emitSegs rest (i + 1)
      (Token.sentence i t :: p.1, p.2)

/-- The `for (const rawSentence of rawSentences)` loop of
`tokenizeDocument`: skip sentences whose trimmed text is empty or
shorter than 2 characters, otherwise secondary-split and emit. -/
def sentenceLoop : List Str → Nat → List Token × Nat
  | [], i => ([], i)
  | s :: rest, i =>
    let trimmed := trimStr s
    if trimmed = [] || trimmed.length < 2 then sentenceLoop rest i
    else
      let p1 := emitSegs (splitLongSentence trimmed) i
      let p2 := sentenceLoop rest p1.2
      (p1.1 ++ p2.1, p2.2)

/-- Tokens emitted for one non-empty (trimmed) paragraph. -/
def paragraphTokens (paragraph : Str) (i : Nat) : List Token × Nat :=
  if isHeadingStr paragraph then ([Token.sentence i paragraph], i + 1)
  else
    let rawSentences := splitBySentenceEnders paragraph
    if rawSentences = [] then emitSegs (splitLongSentence paragraph) i
    else sentenceLoop rawSentences i

/-- The paragraph loop of `tokenizeDocument`: empty (trimmed) paragraphs
are skipped entirely (`continue`, so no separator either); a separator
token `"\n\n"` is emitted after every other paragraph except the last
entry of the paragraph array. -/
def tokenizeParas : List Str → Nat → List Token
  | [], _ => []
  | p :: rest, i =>
    let paragraph := trimStr p
    if paragraph = [] then tokenizeParas rest i
    else
      let pt := paragraphTokens paragraph i
      (pt.1 ++ (if rest = [] then [] else [Token.sep ['\n', '\n']])) ++
        tokenizeParas rest pt.2

/-- `tokenizeDocument` from `tokenize.ts`. -/
def tokenizeDocument (text : Str) : List Token :=
  tokenizeParas (splitParas (replCR (replCRLF text))) 0

/-- `getSentenceTokens` from `tokenize.ts`. -/
def getSentenceTokens (tokens : List Token) : List SentenceTok :=
  tokens.filterMap (fun t =>
    match t with
    | Token.sentence i s => some ⟨i, s⟩
    | Token.sep _ => none)

/-- The replacement map of `rebuildText` (`Map.set` overwrites, so the
last replacement for an index wins). -/
def lookupRep (replacements : List Replacement) (i : Int) : Option Str :=
  (replacements.reverse.find? (fun r => r.index = i)).map (fun r => r.text)

/-- `rebuildText` from `tokenize.ts`: separators verbatim, sentences
replaced when the map has their index, joined with `''`. -/
def rebuildText (tokens : List Token) (replacements : List Replacement) : Str :=
  (tokens.map (fun t =>
    match t with
    | Token.sep s => s
    | Token.sentence i s =>
      match lookupRep replacements (i : Int) with
      | some r => r
      | none => s)).flatten

/-- The paragraph separator `'\n\n'` checked by `validateReplacements`. -/
def sepNN : Str := ['\n', '\n']

/-- The loop body of `validateReplacements`, threading the `seenIndices`
set (the JS code adds an index to `seenIndices` before the validity and
separator checks, so even a rejected index blocks later duplicates). -/
def validateAux : List Replacement → List Int → List Int → List Replacement × List String
  | [], _, _ => ([], [])
  | r :: rest, validIndices, seen =>
    if r.index ∈ seen then
      let p := validateAux rest validIndices seen
      (p.1, ("Duplicate replacement index: " ++ toString r.index) :: p.2)
    else
      let seen2 := r.index :: seen
      if r.index ∉ validIndices then
        let p := validateAux rest validIndices seen2
        (p.1, ("Invalid replacement index: " ++ toString r.index) :: p.2)
      else if containsSub r.text sepNN then
        let p := validateAux rest validIndices seen2
        (p.1, ("Replacement at index " ++ toString r.index ++ " contains paragraph separator") :: p.2)
      else
        let p := validateAux rest validIndices seen2
        (r :: p.1, p.2)

/-- `validateReplacements` from `tokenize.ts`. -/
def validateReplacements (replacements : List Replacement) (validIndices : List Int) :
    List Replacement × List String :=
  validateAux replacements validIndices []

/-! ### `services/workflowService.ts`: document segmenter -/

def PARAGRAPHS_PER_CHUNK : Nat := 6
def MIN_CHUNK_SIZE : Nat := 400
def MAX_CHUNK_CHAR : Nat := 2000

/-- `Chunk` from `workflowService.ts`: `{ title, rawTitle, content }`. -/
structure Chunk where
  title : Str
  rawTitle : Str
  content : Str
deriving DecidableEq, Repr

/-- The curated academic section headings, in the order they are joined
into the section regex. -/
def academicSections : List Str :=
  ["Abstract", "Introduction", "Background", "Literature Review",
   "Methodology", "Methods", "Materials and Methods", "Experimental Setup",
   "Results", "Findings", "Discussion", "Conclusion", "Summary",
   "References", "Bibliography", "Acknowledgements", "Appendix",
   "摘要", "引言", "前言", "绪论", "研究背景", "文献综述", "方法", "材料与方法",
   "实验", "结果", "讨论", "结论", "参考文献", "致谢", "附录"].map String.toList

/-- Length of `.*` at this position (any character except a line
terminator, `i`/`m` flags do not change this). -/
def lineRestLen (s : Str) : Nat := runLen (fun c => !(c = '\n' || c = '\r')) s

/-- Does `$` (multiline) match at this position: end of input or before
a `'\n'`? -/
def lineEndAt (s : Str) : Bool := s = [] || s.head? = some '\n'

/-- Length matched by the first alternative `^#+\s+.*` of the section
regex at a line start (greedy `#` run, then a non-empty greedy
whitespace run — `\s` may cross newlines — then the rest of the line). -/
def matchSecBr1 (rem : Str) : Option Nat :=
  let h := runLen (fun c => c = '#') rem
  if h = 0 then none
  else
    let w := runLen isJsWS (rem.drop h)
    if w = 0 then none
    else some (h + w + lineRestLen (rem.drop (h + w)))

/-- Length of the first section name (in `academicSections` order, the
regex alternation order) that matches case-insensitively at this
position. -/
def sectionNameLen (s : Str) : Option Nat :=
  (academicSections.find? (fun name => startsWithCI s name)).map List.length

/-- Length matched by the second alternative
`^(?:\d+\.?\s*)?(?:…sections…).*$` of the section regex at a line
start.  The optional numeric prefix is taken greedily when a digit is
present (no alternative left: section names start with neither digits,
dots nor whitespace, so failed greediness cannot be repaired by
backtracking), and `$` must find a line end. -/
def matchSecBr2 (rem : Str) : Option Nat :=
  let d := runLen isDigitCh rem
  let pre :=
    if d > 0 then
      let dot := if (rem.drop d).head? = some '.' then 1 else 0
      d + dot + runLen isJsWS (rem.drop (d + dot))
    else 0
  if d = 0 || pre > 0 then
    match sectionNameLen (rem.drop pre) with
    | some n =>
      let q := pre + n + lineRestLen (rem.drop (pre + n))
      if lineEndAt (rem.drop q) then some q else none
    | none => none
  else none

/-- The section regex of `chunkDocument`
(`/(^#+\s+.*|^(?:\d+\.?\s*)?(?:…)…$)/im`) matched at a position known
to be a line start: first alternative first. -/
def matchSectionAt (rem : Str) : Option Nat :=
  match matchSecBr1 rem with
  | some l => some l
  | none => matchSecBr2 rem

/-- `trimmedContent.split(sectionRegex)` with the single capturing
group: parts interleaved with the captured separators.  Both regex
alternatives are anchored at `^` (multiline), so only line starts can
match.  Fuel: every step consumes at least one character. -/
def sectionSplitAux : Nat → Str → Bool → Str → List Str
  | 0, _, _, cur => [cur.reverse]
  | fuel + 1, rem, atLineStart, cur =>
    match rem with
    | [] => [cur.reverse]
    | c :: rest =>
      if atLineStart then
        match matchSectionAt (c :: rest) with
        | some len =>
          let m := (c :: rest).take len
          cur.reverse :: m ::
            sectionSplitAux fuel ((c :: rest).drop len) (m.getLast? = some '\n') []
        | none => sectionSplitAux fuel rest (c = '\n') (c :: cur)
      else sectionSplitAux fuel rest (c = '\n') (c :: cur)

/-- `String.prototype.split` on the section regex. -/
def sectionSplit (s : Str) : List Str := sectionSplitAux (s.length + 1) s true []

/-- `rawTitle.replace(/^#+\s*/, '')`. -/
def stripHashMark (s : Str) : Str :=
  let h := runLen (fun c => c = '#') s
  if h = 0 then s else (s.drop h).drop (runLen isJsWS (s.drop h))

/-- `….replace(/^\d+\.?\s*/, '')`. -/
def stripNumMark (s : Str) : Str :=
  let d := runLen isDigitCh s
  if d = 0 then s
  else
    let dot := if (s.drop d).head? = some '.' then 1 else 0
    (s.drop (d + dot)).drop (runLen isJsWS (s.drop (d + dot)))

/-- The `for (let i = 1; i < rawChunks.length; i += 2)` loop of
`chunkDocument`, applied to `rawChunks.drop 1`: consume (captured
heading, following part) pairs; push a chunk only when the trimmed
following part is non-empty. -/
def pairLoop : List Str → List Chunk
  | [] => []
  | [_] => []
  | t :: c :: rest =>
    let rawTitle := trimStr t
    let title := trimStr (stripNumMark (stripHashMark rawTitle))
    let content := trimStr c
    (if content ≠ [] then [Chunk.mk title rawTitle content] else []) ++ pairLoop rest

/-- `text.split(/\n\s*\n/)` used by the paragraph fallback: a separator
is a newline, a greedy whitespace run, and a final newline (the last
newline of the whitespace run, by minimal backtracking of `\s*`).
Fuel: every step consumes at least one character. -/
def paraSplitAux : Nat → Str → Str → List Str
  | 0, _, cur => [cur.reverse]
  | fuel + 1, rem, cur =>
    match rem with
    | [] => [cur.reverse]
    | c :: rest =>
      if c = '\n' then
        let run := (c :: rest).takeWhile isJsWS
        match lastIdxOf run '\n' with
        | some q =>
          if q ≥ 1 then cur.reverse :: paraSplitAux fuel ((c :: rest).drop (q + 1)) []
          else paraSplitAux fuel rest ('\n' :: cur)
        | none => paraSplitAux fuel rest ('\n' :: cur)
      else paraSplitAux fuel rest (c :: cur)

/-- `trimmedContent.split(/\n\s*\n/)`. -/
def paraSplit (s : Str) : List Str := paraSplitAux (s.length + 1) s []

/-- `'Part ' + n` as a character list. -/
def partName (n : Nat) : Str := ("Part " ++ toString n).toList

/-- The paragraph-grouping loop of `chunkDocument`: every
`PARAGRAPHS_PER_CHUNK` consecutive paragraphs (and the final partial
group) become one chunk. -/
def groupParasAux : List Str → Nat → Str → List Chunk → List Chunk
  | [], _, _, acc => acc.reverse
  | p :: rest, cnt, curC, acc =>
    let curC2 := curC ++ p ++ sepNN
    if (cnt + 1) % PARAGRAPHS_PER_CHUNK = 0 || rest = [] then
      let nm := partName (acc.length + 1)
      groupParasAux rest (cnt + 1) [] (Chunk.mk nm nm (trimStr curC2) :: acc)
    else groupParasAux rest (cnt + 1) curC2 acc

/-- `String.prototype.lastIndexOf(needle, pos)`: the largest start
index `≤ pos` at which `needle` occurs, or `-1`. -/
def lastIndexOfSub (s needle : Str) (pos : Nat) : Int :=
  (List.range (pos + 1)).foldl
    (fun acc j => if startsWith (s.drop j) needle then (j : Int) else acc) (-1)

/-- The character-window fallback loop of `chunkDocument`: slide a
window of `MAX_CHUNK_CHAR`, snapping the cut backward to the last
`'\n\n'` (else `'\n'`) no later than the window end, else cutting at
the exact size; note that the source then skips one character
(`start = boundary + 1`) even when no newline was found.  Fuel: `start`
strictly increases each iteration. -/
def charWindowAux (full : Str) : Nat → Nat → List Chunk → List Chunk
  | 0, _, acc => acc.reverse
  | fuel + 1, start, acc =>
    if start < full.length then
      let endI := min (start + MAX_CHUNK_CHAR) full.length
      let b1 : Int := lastIndexOfSub full sepNN endI
      let b2 : Int := if b1 ≤ (start : Int) then lastIndexOfSub full ['\n'] endI else b1
      let boundary : Int := if b2 ≤ (start : Int) then (endI : Int) else b2
      let bN : Nat := boundary.toNat
      let segment := trimStr ((full.drop start).take (bN - start))
      let acc2 :=
        if segment ≠ [] then
          Chunk.mk (partName (acc.length + 1)) (partName (acc.length + 1)) segment :: acc
        else acc
      charWindowAux full fuel (if bN < full.length then bN + 1 else bN) acc2
    else acc.reverse

/-- `chunkDocument` from `workflowService.ts`: heading detection, then
the paragraph fallback, then the character-window fallback, then the
full-document fallback. -/
def chunkDocument (content : Str) : List Chunk :=
  let trimmedContent := trimStr (replCRLF content)
  if trimmedContent = [] then []
  else
    let rawChunks := sectionSplit trimmedContent
    let chunks := pairLoop (rawChunks.drop 1)
    if chunks.length ≤ 1 then
      let paragraphs := (paraSplit trimmedContent).filter (fun p => trimStr p ≠ [])
      if paragraphs.length ≤ 1 then
        let parts := charWindowAux trimmedContent (trimmedContent.length + 1) 0 []
        if parts = [] then
          [Chunk.mk ("Full Document".toList) ("Full Document".toList) trimmedContent]
        else parts
      else groupParasAux paragraphs 0 [] []
    else chunks

/-- The merge loop of `mergeSmallChunks`, threading the pending
`tempChunk`. -/
def mergeAux : Chunk → List Chunk → List Chunk
  | temp, [] => [temp]
  | temp, c :: rest =>
    let wouldMergeLen := temp.content.length + 2 + c.content.length
    if temp.content.length < MIN_CHUNK_SIZE ∧ wouldMergeLen ≤ MAX_CHUNK_CHAR then
      mergeAux
        (Chunk.mk
          (if containsSub temp.title ("Merged".toList) then temp.title
           else temp.title ++ (" + ".toList) ++ c.title)
          temp.rawTitle
          (temp.content ++ sepNN ++ c.content)) rest
    else temp :: mergeAux c rest

/-- `mergeSmallChunks` from `workflowService.ts`. -/
def mergeSmallChunks (chunks : List Chunk) : List Chunk :=
  match chunks with
  | [] => []
  | [c] => [c]
  | c :: rest => (mergeAux c rest).filter (fun ch => (trimStr ch.content).length > 0)

/-! ### `utils/analysis/fidelity.ts`: number/acronym extraction and
fidelity guardrails -/

/-- `Math.round` (JS rounds half away from zero towards `+∞`; every
value rounded in this pipeline is non-negative). -/
def jsRound (q : Rat) : Int := ⌊q + 1 / 2⌋

/-- Insertion into a JS `Set` modelled as a duplicate-free list in
insertion order (the iteration order of a JS `Set`). -/
def insertUnique (l : List Str) (x : Str) : List Str :=
  if x ∈ l then l else l ++ [x]

/-- Insert all elements, left to right. -/
def insertAll (l : List Str) (xs : List Str) : List Str := xs.foldl insertUnique l

/-- Matcher for `/\d+\.?\d*%/` at a position: a digit run, an optional
dot with a digit run, then `%`.  (Backtracking cannot rescue a failure:
shortening any quantifier leaves a digit or a dot where `%` must
stand.) -/
def matchPct (s : Str) : Option Nat :=
  let d := runLen isDigitCh s
  if d = 0 then none
  else
    let rest := s.drop d
    if rest.head? = some '%' then some (d + 1)
    else if rest.head? = some '.' then
      let d2 := runLen isDigitCh (rest.drop 1)
      if (rest.drop (1 + d2)).head? = some '%' then some (d + 1 + d2 + 1) else none
    else none

/-- Matcher for `/\d+\.?\d*[eE][+-]?\d+/` at a position. -/
def matchSci (s : Str) : Option Nat :=
  let d := runLen isDigitCh s
  if d = 0 then none
  else
    let rest := s.drop d
    let frac :=
      if rest.head? = some '.' then 1 + runLen isDigitCh (rest.drop 1) else 0
    let rest2 := s.drop (d + frac)
    if rest2.head? = some 'e' || rest2.head? = some 'E' then
      let sgn :=
        if (rest2.drop 1).head? = some '+' || (rest2.drop 1).head? = some '-' then 1 else 0
      let d3 := runLen isDigitCh (rest2.drop (1 + sgn))
      if d3 = 0 then none else some (d + frac + 1 + sgn + d3)
    else none

/-- The unit alternatives of the third number pattern, in source
(alternation) order. -/
def unitAlts : List Str :=
  ["mm", "cm", "m", "km", "mg", "g", "kg", "ml", "L", "℃", "°C",
   "Hz", "kHz", "MHz", "GHz", "ms", "s", "min", "h"].map String.toList

/-- Matcher for
`/\d+\.?\d*(?:mm|cm|m|km|mg|g|kg|ml|L|℃|°C|Hz|kHz|MHz|GHz|ms|s|min|h)/i`
at a position: the first alternative (not the longest) that matches
case-insensitively wins, exactly as in a JS alternation. -/
def matchUnit (s : Str) : Option Nat :=
  let d := runLen isDigitCh s
  if d = 0 then none
  else
    let rest := s.drop d
    let frac :=
      if rest.head? = some '.' then 1 + runLen isDigitCh (rest.drop 1) else 0
    let rest2 := s.drop (d + frac)
    match unitAlts.find? (fun u => startsWithCI rest2 u) with
    | some u => some (d + frac + u.length)
    | none => none

/-- Matcher for `/\d+\.\d+/` at a position. -/
def matchDec (s : Str) : Option Nat :=
  let d := runLen isDigitCh s
  if d = 0 then none
  else if (s.drop d).head? = some '.' then
    let d2 := runLen isDigitCh (s.drop (d + 1))
    if d2 = 0 then none else some (d + 1 + d2)
  else none

/-- Matcher for `/\d{2,}/` at a position. -/
def matchInt2 (s : Str) : Option Nat :=
  let d := runLen isDigitCh s
  if d ≥ 2 then some d else none

/-- `text.match(pattern) || []` for a `g`-flagged pattern without word
boundaries: scan left to right, at each position try the matcher and on
success continue after the match (all the matchers above consume at
least one character).  Fuel: every step consumes at least one
character. -/
def scanAll (matchAt : Str → Option Nat) : Nat → Str → List Str
  | 0, _ => []
  | fuel + 1, rem =>
    match rem with
    | [] => []
    | c :: rest =>
      match matchAt (c :: rest) with
      | some len =>
        (c :: rest).take len :: scanAll matchAt fuel ((c :: rest).drop len)
      | none => scanAll matchAt fuel rest

/-- `match.toLowerCase()`. -/
def lowerStr (s : Str) : Str := s.map Char.toLower

/-- `….replace(/\.0+$/, '')`: strip one dot followed by a non-empty
run of zeros at the very end. -/
def stripTrailZeros (s : Str) : Str :=
  let r := s.reverse
  let z := runLen (fun c => c = '0') r
  if z ≥ 1 && (r.drop z).head? = some '.' then ((r.drop z).drop 1).reverse else s

/-- The normalisation applied to every number match. -/
def normalizeNumMatch (s : Str) : Str := stripTrailZeros (lowerStr s)

/-- `extractNumbers` from `fidelity.ts`: run the five patterns in
order, normalising and set-inserting every match. -/
def extractNumbers (text : Str) : List Str :=
  [matchPct, matchSci, matchUnit, matchDec, matchInt2].foldl
    (fun acc m => insertAll acc ((scanAll m text.length text).map normalizeNumMatch)) []

/-- Does the `\b` word boundary hold between `prev` (the character just
before the match, `none` at the start of the text) and a word
character? -/
def boundaryBefore (prev : Option Char) : Bool :=
  match prev with
  | none => true
  | some c => !isWordCh c

/-- Does the `\b` word boundary hold at the end of a match, i.e. is the
next character absent or a non-word character? -/
def boundaryAfter (s : Str) : Bool :=
  match s.head? with
  | none => true
  | some c => !isWordCh c

/-- Matcher for `/\b[A-Z]{2,}\d*\b/` given the previous character: an
uppercase run of length ≥ 2, a digit run, and a word boundary (no
shorter quantifier split can create a boundary inside a word-character
run). -/
def matchAcrCaps (prev : Option Char) (s : Str) : Option Nat :=
  if !boundaryBefore prev then none
  else
    let u := runLen isUpperCh s
    if u < 2 then none
    else
      let d := runLen isDigitCh (s.drop u)
      if boundaryAfter (s.drop (u + d)) then some (u + d) else none

/-- Count the uppercase characters of `s`. -/
def countUpper (s : Str) : Nat := (s.filter isUpperCh).length

/-- Matcher for `/\b[A-Z][a-zA-Z]*[A-Z][a-zA-Z]*\d*\b/`: whatever the
greedy/backtracking split, a successful match covers the whole maximal
letter run followed by the maximal digit run; it succeeds iff the
letter run starts uppercase and holds at least two uppercase letters
and a boundary follows. -/
def matchAcrCamel (prev : Option Char) (s : Str) : Option Nat :=
  if !boundaryBefore prev then none
  else
    match s.head? with
    | some c =>
      if !isUpperCh c then none
      else
        let L := runLen isLetterCh s
        if countUpper (s.take L) < 2 then none
        else
          let d := runLen isDigitCh (s.drop L)
          if boundaryAfter (s.drop (L + d)) then some (L + d) else none
    | none => none

/-- Matcher for `/\b[A-Z][a-z]+(?:-[A-Z0-9][a-zA-Z0-9]*)?\b/`: an
uppercase letter, a non-empty lowercase run, optionally a dash suffix;
if the dash suffix fails its end boundary the match falls back to the
base (the dash itself is a boundary). -/
def matchAcrProper (prev : Option Char) (s : Str) : Option Nat :=
  if !boundaryBefore prev then none
  else
    match s.head? with
    | some c =>
      if !isUpperCh c then none
      else
        let l := runLen isLowerCh (s.drop 1)
        if l = 0 then none
        else
          let base := 1 + l
          let rest := s.drop base
          if rest.head? = some '-' &&
             (match (rest.drop 1).head? with
              | some c2 => isUpperCh c2 || isDigitCh c2
              | none => false) then
            let a := runLen isAlnumCh (rest.drop 2)
            if boundaryAfter (rest.drop (2 + a)) then some (base + 2 + a) else some base
          else if boundaryAfter rest then some base
          else none
    | none => none

/-- Scanner for the boundary-aware acronym patterns; tracks the
character preceding the current position. -/
def scanAllB (matchAt : Option Char → Str → Option Nat) :
    Nat → Option Char → Str → List Str
  | 0, _, _ => []
  | fuel + 1, prev, rem =>
    match rem with
    | [] => []
    | c :: rest =>
      match matchAt prev (c :: rest) with
      | some len =>
        let m := (c :: rest).take len
        m :: scanAllB matchAt fuel m.getLast? ((c :: rest).drop len)
      | none => scanAllB matchAt fuel (some c) rest

/-- The stop words excluded by `extractAcronyms`
(`/^(The|This|That|These|Those|With|From|Into|Upon)$/`). -/
def acronymStopWords : List Str :=
  ["The", "This", "That", "These", "Those", "With", "From", "Into", "Upon"].map
    String.toList

/-- `extractAcronyms` from `fidelity.ts`. -/
def extractAcronyms (text : Str) : List Str :=
  [matchAcrCaps, matchAcrCamel, matchAcrProper].foldl
    (fun acc m =>
      insertAll acc
        (((scanAllB m text.length none text).filter
          (fun w => w.length ≥ 2 && !(w ∈ acronymStopWords))))) []

/-- `calculateRetentionRate` from `fidelity.ts`. -/
def calculateRetentionRate (original rewritten : List Str) : Rat :=
  if original.length = 0 then 100
  else
    let retained := (original.filter (fun item => item ∈ rewritten)).length
    (jsRound (((retained : Rat) / (original.length : Rat)) * 100 * 10) : Rat) / 10

/-- `findMissingItems` from `fidelity.ts` (set iteration order is
insertion order). -/
def findMissingItems (original rewritten : List Str) : List Str :=
  original.filter (fun item => item ∉ rewritten)

/-- `findSentenceIndex` from `fidelity.ts`. -/
def findSentenceIndex (text token : Str) : Int :=
  match (splitSentencesCN text).find? (fun s => containsSub s.text token) with
  | some s => (s.index : Int)
  | none => -1

/-- The alert kinds of `FidelityAlert.type` used by
`calculateFidelityGuardrails`. -/
inductive AlertType where
  | number_loss
  | acronym_change
deriving DecidableEq, Repr

/-- `FidelityAlert` from `types.ts`. -/
structure FidelityAlert where
  type : AlertType
  sentenceIndex : Int
  detail : Str
deriving DecidableEq, Repr

/-- `FidelityGuardrails` from `types.ts`. -/
structure FidelityGuardrails where
  numberRetentionRate : Rat
  acronymRetentionRate : Rat
  alerts : List FidelityAlert
deriving DecidableEq, Repr

/-- `calculateFidelityGuardrails` from `fidelity.ts`. -/
def calculateFidelityGuardrails (draftText standardText : Str) : FidelityGuardrails :=
  let draftNumbers := extractNumbers draftText
  let standardNumbers := extractNumbers standardText
  let draftAcronyms := extractAcronyms draftText
  let standardAcronyms := extractAcronyms standardText
  let missingNumbers := findMissingItems draftNumbers standardNumbers
  let missingAcronyms := findMissingItems draftAcronyms standardAcronyms
  { numberRetentionRate := calculateRetentionRate draftNumbers standardNumbers
    acronymRetentionRate := calculateRetentionRate draftAcronyms standardAcronyms
    alerts :=
      (missingNumbers.take 5).map (fun num =>
        { type := AlertType.number_loss
          sentenceIndex := findSentenceIndex draftText num
          detail := ("Missing number: ".toList) ++ num }) ++
      (missingAcronyms.take 5).map (fun acr =>
        { type := AlertType.acronym_change
          sentenceIndex := findSentenceIndex draftText acr
          detail := ("Missing acronym: ".toList) ++ acr }) }

/-! ### `utils/analysis/mirrorScore`: mirror score -/

/-- `DetailedMetrics.sentenceLength` from `types.ts`. -/
structure SentenceLengthM where
  mean : Rat
  p50 : Rat
  p90 : Rat
  longRate50 : Rat
deriving DecidableEq, Repr

/-- `DetailedMetrics.punctuationDensity` from `types.ts`. -/
structure PunctuationDensityM where
  comma : Rat
  semicolon : Rat
  parenthesis : Rat
deriving DecidableEq, Repr

/-- `DetailedMetrics.connectorCounts` from `types.ts`. -/
structure ConnectorCountsM where
  causal : Rat
  adversative : Rat
  additive : Rat
  emphatic : Rat
  total : Rat
deriving DecidableEq, Repr

/-- `DetailedMetrics.templateCounts` from `types.ts`. -/
structure TemplateCountsM where
  count : Rat
  perThousandChars : Rat
deriving DecidableEq, Repr

/-- `DetailedMetrics` from `types.ts`. -/
structure DetailedMetrics where
  sentenceLength : SentenceLengthM
  punctuationDensity : PunctuationDensityM
  connectorCounts : ConnectorCountsM
  templateCounts : TemplateCountsM
  textLengthChars : Rat
  sentenceCount : Rat
deriving DecidableEq, Repr

/-- The weight record of the mirror score. -/
structure ScoreWeights where
  sentence : Rat
  connectors : Rat
  punctuation : Rat
  templates : Rat
deriving DecidableEq, Repr

/-- `DEFAULT_WEIGHTS` from the mirror-score module. -/
def DEFAULT_WEIGHTS : ScoreWeights :=
  { sentence := 4 / 10, connectors := 25 / 100, punctuation := 15 / 100, templates := 2 / 10 }

/-- `normalizedDiff` from the mirror-score module. -/
def normalizedDiff (a b maxExpected : Rat) : Rat :=
  if maxExpected = 0 then 0 else min (|a - b| / maxExpected) 1

/-- `sentenceLengthDistance` from the mirror-score module. -/
def sentenceLengthDistance (target sample : SentenceLengthM) : Rat :=
  normalizedDiff target.mean sample.mean 50 * (4 / 10) +
  normalizedDiff target.p50 sample.p50 50 * (3 / 10) +
  normalizedDiff target.p90 sample.p90 100 * (2 / 10) +
  normalizedDiff target.longRate50 sample.longRate50 100 * (1 / 10)

/-- `connectorDistance` from the mirror-score module (`total || 1`
replaces a zero denominator by one). -/
def connectorDistance (target sample : ConnectorCountsM) : Rat :=
  let targetTotal := if target.total = 0 then 1 else target.total
  let sampleTotal := if sample.total = 0 then 1 else sample.total
  let l1 :=
    |target.causal / targetTotal - sample.causal / sampleTotal| +
    |target.adversative / targetTotal - sample.adversative / sampleTotal| +
    |target.additive / targetTotal - sample.additive / sampleTotal| +
    |target.emphatic / targetTotal - sample.emphatic / sampleTotal|
  min (l1 / 2) 1

/-- `punctuationDistance` from the mirror-score module. -/
def punctuationDistance (target sample : PunctuationDensityM) : Rat :=
  normalizedDiff target.comma sample.comma 30 * (5 / 10) +
  normalizedDiff target.semicolon sample.semicolon 10 * (25 / 100) +
  normalizedDiff target.parenthesis sample.parenthesis 20 * (25 / 100)

/-- `templateDistance` from the mirror-score module. -/
def templateDistance (target sample : TemplateCountsM) : Rat :=
  normalizedDiff target.perThousandChars sample.perThousandChars 5

/-- `calculateMirrorScore` from the mirror-score module. -/
def calculateMirrorScore (target sample : DetailedMetrics) (weights : ScoreWeights) : Rat :=
  let weightedDistance :=
    sentenceLengthDistance target.sentenceLength sample.sentenceLength * weights.sentence +
    connectorDistance target.connectorCounts sample.connectorCounts * weights.connectors +
    punctuationDistance target.punctuationDensity sample.punctuationDensity * weights.punctuation +
    templateDistance target.templateCounts sample.templateCounts * weights.templates
  (jsRound ((1 - weightedDistance) * 100 * 10) : Rat) / 10

/-- `MirrorScore` from `types.ts`. -/
structure MirrorScore where
  draftToSample : Rat
  standardToSample : Rat
  improvement : Rat
  weights : ScoreWeights
deriving DecidableEq, Repr

/-- `generateMirrorScore` from the mirror-score module (with its
default weights, as called by the workflow). -/
def generateMirrorScore (sample draft standard : DetailedMetrics) : MirrorScore :=
  let draftToSample := calculateMirrorScore draft sample DEFAULT_WEIGHTS
  let standardToSample := calculateMirrorScore standard sample DEFAULT_WEIGHTS
  { draftToSample := draftToSample
    standardToSample := standardToSample
    improvement := (jsRound ((standardToSample - draftToSample) * 10) : Rat) / 10
    weights := DEFAULT_WEIGHTS }

/-! ### `services/workflowService.ts`: the adaptive batch scheduler

The rewriting service is an oracle `Nat → CallResult`: the outcome of
the n-th service call overall (either a list of replacements with the
call's wall-clock duration, or a failure — timeouts, malformed JSON and
transport errors all reach the `catch` block alike).  Besides the
source's `BatchProcessingState`, the model threads an instrumentation
log recording, for every call, the sentence indices submitted and
whether the call succeeded; the log is write-only and never influences
control flow. -/

/-- The outcome of one rewriting-service call. -/
inductive CallResult where
  | success (replacements : List Replacement) (durationMs : Nat)
  | failure
deriving Repr

/-- `BatchProcessingState` from `workflowService.ts`. -/
structure BatchState where
  currentBatchSize : Nat
  consecutiveFastCalls : Nat
  allReplacements : List Replacement
  failedIndices : List Int
deriving DecidableEq, Repr

/-- Write-only instrumentation: total calls made so far and, per call,
the submitted sentence indices with the success flag. -/
structure SchedLog where
  calls : Nat
  trace : List (List Int × Bool)
deriving DecidableEq, Repr

/-- `Array.prototype.indexOf`, position-threaded (`-1` when absent). -/
def jsIndexOfAux (x : Nat) : List Nat → Nat → Int
  | [], _ => -1
  | y :: rest, k => if y = x then (k : Int) else jsIndexOfAux x rest (k + 1)

/-- `Array.prototype.indexOf` on the degradation chain (`-1` when
absent). -/
def jsIndexOf (l : List Nat) (x : Nat) : Int := jsIndexOfAux x l 0

/-- `degradeBatchSize` from `workflowService.ts`. -/
def degradeBatchSize (currentSize : Nat) : Nat :=
  let i := jsIndexOf DEGRADATION_CHAIN currentSize
  if i = -1 then
    match DEGRADATION_CHAIN.find? (fun size => size < currentSize) with
    | some size => size
    | none => 1
  else if i < (DEGRADATION_CHAIN.length : Int) - 1 then
    DEGRADATION_CHAIN.getD (i.toNat + 1) 1
  else 1

/-- The batch-size adjustment performed on a successful call
(`processBatchWithRetry`, success path). -/
def adjustBatchSizeOnSuccess (durationMs : Nat) (st : BatchState) : BatchState :=
  if durationMs > SLOW_CALL_THRESHOLD_MS then
    { st with currentBatchSize := degradeBatchSize st.currentBatchSize,
              consecutiveFastCalls := 0 }
  else if durationMs < TARGET_FAST_MS then
    let cf := st.consecutiveFastCalls + 1
    if cf ≥ 3 ∧ st.currentBatchSize < MAX_BATCH_SIZE then
      let i := jsIndexOf DEGRADATION_CHAIN st.currentBatchSize
      if i > 0 then
        { st with currentBatchSize := DEGRADATION_CHAIN.getD (i.toNat - 1) st.currentBatchSize,
                  consecutiveFastCalls := 0 }
      else { st with consecutiveFastCalls := 0 }
    else { st with consecutiveFastCalls := cf }
  else { st with consecutiveFastCalls := 0 }

/-- The single-sentence fallback loop of `processBatchWithRetry`. -/
def singleFallback (oracle : Nat → CallResult) (validIndices : List Int) :
    List SentenceTok → BatchState → SchedLog → BatchState × SchedLog
  | [], st, log => (st, log)
  | s :: rest, st, log =>
    match oracle log.calls with
    | CallResult.success reps _ =>
      let log2 : SchedLog :=
        { calls := log.calls + 1, trace := log.trace ++ [([(s.index : Int)], true)] }
      let valid := (validateReplacements reps validIndices).1
      singleFallback oracle validIndices rest
        { st with allReplacements := st.allReplacements ++ valid } log2
    | CallResult.failure =>
      let log2 : SchedLog :=
        { calls := log.calls + 1, trace := log.trace ++ [([(s.index : Int)], false)] }
      singleFallback oracle validIndices rest
        { st with failedIndices := st.failedIndices ++ [(s.index : Int)] } log2

/-- The `while (currentBatch.length > 0)` retry loop of
`processBatchWithRetry`.  Fuel: each recursive submission replaces the
batch by a strictly shorter one (its first half), so fuel equal to the
batch length is exact (fuel 0 forces the empty batch, which is the
loop's own exit). -/
def processBatchF (oracle : Nat → CallResult) (validIndices : List Int) :
    Nat → List SentenceTok → Nat → BatchState → SchedLog → BatchState × SchedLog
  | 0, _, _, st, log => (st, log)
  | fuel + 1, currentBatch, retryCount, st, log =>
    if currentBatch = [] then (st, log)
    else
      match oracle log.calls with
      | CallResult.success reps durationMs =>
        let log2 : SchedLog :=
          { calls := log.calls + 1,
            trace := log.trace ++ [(currentBatch.map (fun s => (s.index : Int)), true)] }
        let valid := (validateReplacements reps validIndices).1
        let st2 := { st with allReplacements := st.allReplacements ++ valid }
        (adjustBatchSizeOnSuccess durationMs st2, log2)
      | CallResult.failure =>
        let log2 : SchedLog :=
          { calls := log.calls + 1,
            trace := log.trace ++ [(currentBatch.map (fun s => (s.index : Int)), false)] }
        let rc := retryCount + 1
        if rc ≤ MAX_RETRY_PER_BATCH ∧ currentBatch.length > 1 then
          let halfSize := max 1 (currentBatch.length / 2)
          processBatchF oracle validIndices fuel (currentBatch.take halfSize) rc st log2
        else if currentBatch.length = 1 then
          ({ st with
              failedIndices :=
                st.failedIndices ++ currentBatch.map (fun s => (s.index : Int)) }, log2)
        else singleFallback oracle validIndices currentBatch st log2

/-- `processBatchWithRetry` from `workflowService.ts`. -/
def processBatchWithRetry (oracle : Nat → CallResult) (validIndices : List Int)
    (batch : List SentenceTok) (st : BatchState) (log : SchedLog) :
    BatchState × SchedLog :=
  processBatchF oracle validIndices batch.length batch 0 st log

/-- The per-chunk `while (currentIndex < sentenceTokens.length)` loop
of `rewriteChunkWithSentenceEdits`.  Fuel: `currentIndex` advances by
at least one token per iteration (the empty-batch `break` otherwise
exits), so fuel equal to the token count is exact. -/
def chunkLoopF (oracle : Nat → CallResult) (validIndices : List Int)
    (sentenceTokens : List SentenceTok) :
    Nat → Nat → BatchState → SchedLog → BatchState × SchedLog
  | 0, _, st, log => (st, log)
  | fuel + 1, currentIndex, st, log =>
    if currentIndex < sentenceTokens.length then
      let batchEnd := min (currentIndex + st.currentBatchSize) sentenceTokens.length
      let batch := (sentenceTokens.drop currentIndex).take st.currentBatchSize
      if batch = [] then (st, log)
      else
        let r := processBatchWithRetry oracle validIndices batch st log
        chunkLoopF oracle validIndices sentenceTokens fuel batchEnd r.1 r.2
    else (st, log)

/-- The initial `BatchProcessingState` of a chunk. -/
def initialBatchState : BatchState :=
  { currentBatchSize := INITIAL_BATCH_SIZE, consecutiveFastCalls := 0,
    allReplacements := [], failedIndices := [] }

/-- The batch-processing part of `rewriteChunkWithSentenceEdits`,
applied to a chunk's sentence tokens: run the batching loop from the
initial state with the valid-index set built from the tokens. -/
def runChunkScheduler (oracle : Nat → CallResult) (sentenceTokens : List SentenceTok) :
    BatchState × SchedLog :=
  chunkLoopF oracle (sentenceTokens.map (fun s => (s.index : Int))) sentenceTokens
    sentenceTokens.length 0 initialBatchState { calls := 0, trace := [] }

/-! ## Theorems -/

/-! ### Mirror score (C7) -/

lemma normalizedDiff_self (a maxExpected : Rat) : normalizedDiff a a maxExpected = 0 := by
  simp only [normalizedDiff, sub_self, abs_zero, zero_div]
  split <;> norm_num

lemma sentenceLengthDistance_self (x : SentenceLengthM) : sentenceLengthDistance x x = 0 := by
  simp [sentenceLengthDistance, normalizedDiff_self]

lemma connectorDistance_self (x : ConnectorCountsM) : connectorDistance x x = 0 := by
  simp only [connectorDistance, sub_self, abs_zero, add_zero, zero_div]
  norm_num

lemma punctuationDistance_self (x : PunctuationDensityM) : punctuationDistance x x = 0 := by
  simp [punctuationDistance, normalizedDiff_self]

lemma templateDistance_self (x : TemplateCountsM) : templateDistance x x = 0 := by
  simp [templateDistance, normalizedDiff_self]

lemma calculateMirrorScore_self (m : DetailedMetrics) (w : ScoreWeights) :
    calculateMirrorScore m m w = 100 := by
  simp only [calculateMirrorScore, sentenceLengthDistance_self, connectorDistance_self,
    punctuationDistance_self, templateDistance_self, zero_mul, add_zero, sub_zero]
  norm_num [jsRound]

/-- C7: supplying the same metrics as sample, draft and standard yields
a mirror score of 100 for both `draftToSample` and `standardToSample`
and an improvement of 0. -/
theorem c7_mirror_score_identical_inputs (m : DetailedMetrics) :
    (generateMirrorScore m m m).draftToSample = 100 ∧
    (generateMirrorScore m m m).standardToSample = 100 ∧
    (generateMirrorScore m m m).improvement = 0 := by
  have h := calculateMirrorScore_self m DEFAULT_WEIGHTS
  refine ⟨?_, ?_, ?_⟩
  · simp only [generateMirrorScore, h]
  · simp only [generateMirrorScore, h]
  · simp only [generateMirrorScore, h]
    norm_num [jsRound]

/-! ### Replacement validation (C5) -/

set_option maxRecDepth 4000 in
lemma validateAux_spec (rs : List Replacement) (vi : List Int) :
    ∀ seen : List Int,
      (∀ r ∈ (validateAux rs vi seen).1,
        r.index ∈ vi ∧ containsSub r.text sepNN = false ∧ r.index ∉ seen) ∧
      ((validateAux rs vi seen).1.map (fun r => r.index)).Nodup ∧
      (validateAux rs vi seen).1.length + (validateAux rs vi seen).2.length = rs.length := by
  induction rs with
  | nil => intro seen; simp [validateAux]
  | cons r rest ih =>
    intro seen
    by_cases hdup : r.index ∈ seen
    · have h := ih seen
      simp only [validateAux, if_pos hdup]
      refine ⟨fun x hx => h.1 x hx, h.2.1, ?_⟩
      simp only [List.length_cons]
      omega
    · by_cases hvalid : r.index ∈ vi
      · by_cases hsep : containsSub r.text sepNN
        · have h := ih (r.index :: seen)
          simp only [validateAux, if_neg hdup, if_neg (not_not_intro hvalid), if_pos hsep]
          refine ⟨fun x hx => ?_, h.2.1, ?_⟩
          · have hx2 := h.1 x hx
            exact ⟨hx2.1, hx2.2.1, fun hmem => hx2.2.2 (List.mem_cons_of_mem _ hmem)⟩
          · simp only [List.length_cons]
            omega
        · have h := ih (r.index :: seen)
          simp only [validateAux, if_neg hdup, if_neg (not_not_intro hvalid), if_neg hsep]
          refine ⟨?_, ?_, ?_⟩
          · intro x hx
            rcases List.mem_cons.mp hx with hx | hx
            · subst hx
              exact ⟨hvalid, Bool.eq_false_iff.mpr hsep, hdup⟩
            · have hx2 := h.1 x hx
              exact ⟨hx2.1, hx2.2.1, fun hmem => hx2.2.2 (List.mem_cons_of_mem _ hmem)⟩
          · simp only [List.map_cons]
            refine List.Pairwise.cons ?_ h.2.1
            intro b hb
            rcases List.mem_map.mp hb with ⟨x, hx, hxi⟩
            intro heq
            exact (h.1 x hx).2.2 (by rw [hxi, ← heq]; exact List.mem_cons_self _ _)
          · simp only [List.length_cons]
            omega
      · have h := ih (r.index :: seen)
        simp only [validateAux, if_neg hdup, if_pos (hvalid : r.index ∉ vi)]
        refine ⟨fun x hx => ?_, h.2.1, ?_⟩
        · have hx2 := h.1 x hx
          exact ⟨hx2.1, hx2.2.1, fun hmem => hx2.2.2 (List.mem_cons_of_mem _ hmem)⟩
        · simp only [List.length_cons]
          omega

/-- C5: every replacement returned in `valid` by `validateReplacements`
has its index in the supplied valid set, no two returned replacements
share an index, no returned replacement's text contains the paragraph
separator `"\n\n"`, and every rejected replacement contributes exactly
one error entry (so `valid` and `errors` sizes add up to the input
size) — rejection never aborts the batch. -/
theorem c5_validate_replacements_sound (rs : List Replacement) (vi : List Int) :
    (∀ r ∈ (validateReplacements rs vi).1, r.index ∈ vi) ∧
    (((validateReplacements rs vi).1.map (fun r => r.index)).Nodup) ∧
    (∀ r ∈ (validateReplacements rs vi).1, containsSub r.text sepNN = false) ∧
    (validateReplacements rs vi).1.length + (validateReplacements rs vi).2.length =
      rs.length := by
  have h := validateAux_spec rs vi []
  exact ⟨fun r hr => (h.1 r hr).1, h.2.1, fun r hr => (h.1 r hr).2.1, h.2.2⟩

/-! ### Round-trip rebuilding (C2) -/

/-- The text carried by a token. -/
def tokenText : Token → Str
  | Token.sentence _ s => s
  | Token.sep s => s

/-- The concatenation of the texts of a token list, in order — the
tokenizer's view of the document. -/
def tokensText (tokens : List Token) : Str := (tokens.map tokenText).flatten

lemma lookupRep_nil (i : Int) : lookupRep [] i = none := rfl

lemma rebuildText_nil_reps (tokens : List Token) :
    rebuildText tokens [] = tokensText tokens := by
  unfold rebuildText tokensText
  congr 1
  apply List.map_congr_left
  intro t _
  cases t with
  | sentence i s => simp [lookupRep_nil, tokenText]
  | sep s => simp [tokenText]

/-- C2 (amended): rebuilding with an empty replacement list is the
identity on the token stream — it returns exactly the concatenation of
the emitted tokens' texts, in order. -/
theorem c2_rebuild_empty_is_token_concat (text : Str) :
    rebuildText (tokenizeDocument text) [] = tokensText (tokenizeDocument text) :=
  rebuildText_nil_reps (tokenizeDocument text)

/-- C2 (counterexample): on the draft `"a  b"` the tokenizer keeps the
double interior blank while `normalizeText` collapses it, so
`rebuildText (tokenizeDocument text) []` differs from the normalized
input. -/
theorem c2_roundtrip_counterexample :
    rebuildText (tokenizeDocument ("a  b".toList)) [] ≠ normalizeText ("a  b".toList) := by
  decide

/-! ### Fidelity guardrails (C6, C8) -/

lemma c6_draft_numbers :
    extractNumbers ("准确率为35.7%。".toList) =
      ["35.7%".toList, "35.7".toList, "35".toList] := by decide

lemma c6_std_numbers :
    extractNumbers ("准确率为35.7。".toList) = ["35.7".toList, "35".toList] := by decide

/-- C6: for the draft `"准确率为35.7%。"` and a rewritten text
`"准确率为35.7。"` from which the numeric token `"35.7%"` is absent,
the guardrails produce exactly one alert, of type `number_loss`,
referencing `"35.7%"` (located in draft sentence 0), and the number
retention rate is strictly below 100. -/
theorem c6_number_loss_scenario :
    (calculateFidelityGuardrails ("准确率为35.7%。".toList) ("准确率为35.7。".toList)).alerts =
      [{ type := AlertType.number_loss, sentenceIndex := 0,
         detail := "Missing number: 35.7%".toList }] ∧
    (calculateFidelityGuardrails ("准确率为35.7%。".toList)
        ("准确率为35.7。".toList)).numberRetentionRate < 100 := by
  constructor
  · decide
  · have hrate : (calculateFidelityGuardrails ("准确率为35.7%。".toList)
        ("准确率为35.7。".toList)).numberRetentionRate =
        calculateRetentionRate (extractNumbers ("准确率为35.7%。".toList))
          (extractNumbers ("准确率为35.7。".toList)) := rfl
    rw [hrate, c6_draft_numbers, c6_std_numbers]
    have hfil : (["35.7%".toList, "35.7".toList, "35".toList].filter
        (fun item => item ∈ ["35.7".toList, "35".toList])).length = 2 := by decide
    simp only [calculateRetentionRate, hfil, List.length_cons, List.length_nil]
    norm_num [jsRound]

lemma calculateRetentionRate_nonneg (o r : List Str) : 0 ≤ calculateRetentionRate o r := by
  unfold calculateRetentionRate
  split
  · norm_num
  · have h0 : (0 : Rat) ≤ ((o.filter (fun item => item ∈ r)).length : Rat) / (o.length : Rat) :=
      div_nonneg (by positivity) (by positivity)
    have h1 : (0 : Int) ≤ jsRound (((o.filter (fun item => item ∈ r)).length : Rat) /
        (o.length : Rat) * 100 * 10) := by
      unfold jsRound
      apply Int.floor_nonneg.mpr
      nlinarith
    have : (0 : Rat) ≤ (jsRound (((o.filter (fun item => item ∈ r)).length : Rat) /
        (o.length : Rat) * 100 * 10) : Rat) := by exact_mod_cast h1
    linarith

lemma calculateRetentionRate_le_100 (o r : List Str) : calculateRetentionRate o r ≤ 100 := by
  unfold calculateRetentionRate
  split
  · norm_num
  · rename_i h
    have hlen : 0 < o.length := Nat.pos_of_ne_zero h
    have hle : ((o.filter (fun item => item ∈ r)).length : Rat) / (o.length : Rat) ≤ 1 := by
      rw [div_le_one (by exact_mod_cast hlen)]
      exact_mod_cast List.length_filter_le _ o
    have h1 : jsRound (((o.filter (fun item => item ∈ r)).length : Rat) /
        (o.length : Rat) * 100 * 10) ≤ 1000 := by
      unfold jsRound
      have hlt : (((o.filter (fun item => item ∈ r)).length : Rat) /
          (o.length : Rat) * 100 * 10) + 1 / 2 < 1001 := by nlinarith
      have hfl := Int.floor_lt.mpr (show (((o.filter (fun item => item ∈ r)).length : Rat) /
          (o.length : Rat) * 100 * 10) + 1 / 2 < ((1001 : Int) : Rat) by exact_mod_cast hlt)
      linarith
    have h2 : (jsRound (((o.filter (fun item => item ∈ r)).length : Rat) /
        (o.length : Rat) * 100 * 10) : Rat) ≤ 1000 := by exact_mod_cast h1
    linarith

/-- C8: the number retention rate of `calculateFidelityGuardrails` is
100 when the draft contains no numeric tokens, and always lies in the
closed interval `[0, 100]`. -/
theorem c8_number_retention_bounds (D R : Str) :
    (extractNumbers D = [] →
      (calculateFidelityGuardrails D R).numberRetentionRate = 100) ∧
    0 ≤ (calculateFidelityGuardrails D R).numberRetentionRate ∧
    (calculateFidelityGuardrails D R).numberRetentionRate ≤ 100 := by
  have hrate : (calculateFidelityGuardrails D R).numberRetentionRate =
      calculateRetentionRate (extractNumbers D) (extractNumbers R) := rfl
  refine ⟨?_, ?_, ?_⟩
  · intro h
    rw [hrate, h]
    simp [calculateRetentionRate]
  · rw [hrate]
    exact calculateRetentionRate_nonneg _ _
  · rw [hrate]
    exact calculateRetentionRate_le_100 _ _

/-- Witness for C8 at the concrete number-free draft `"abc"`. -/
theorem c8_number_retention_bounds_witness :
    extractNumbers ("abc".toList) = [] ∧
    (calculateFidelityGuardrails ("abc".toList) ("x".toList)).numberRetentionRate = 100 :=
  ⟨by decide, (c8_number_retention_bounds ("abc".toList) ("x".toList)).1 (by decide)⟩

/-! ### Tokenizer index discipline (C9) -/

/-- The indices of the sentence tokens of a token list, in emission
order. -/
def sIdx (tokens : List Token) : List Nat :=
  tokens.filterMap (fun t =>
    match t with
    | Token.sentence i _ => some i
    | Token.sep _ => none)

lemma sIdx_append (l1 l2 : List Token) : sIdx (l1 ++ l2) = sIdx l1 ++ sIdx l2 := by
  simp [sIdx]

lemma sIdx_sentence_cons (i : Nat) (s : Str) (l : List Token) :
    sIdx (Token.sentence i s :: l) = i :: sIdx l := by
  simp [sIdx]

lemma sIdx_sep_cons (s : Str) (l : List Token) :
    sIdx (Token.sep s :: l) = sIdx l := by
  simp [sIdx]

lemma range'_glue (a b : List Nat) (i : Nat)
    (ha : a = List.range' i a.length)
    (hb : b = List.range' (i + a.length) b.length) :
    a ++ b = List.range' i (a ++ b).length := by
  rw [List.length_append]
  conv_lhs => rw [ha, hb]
  rw [List.range'_append_1, Nat.add_comm]

/-- Specification of `emitSegs`: the emitted sentence indices are
consecutive from the start counter, the returned counter advances by
exactly the emission count, and all emitted texts are non-empty. -/
lemma emitSegs_spec (segs : List Str) : ∀ i : Nat,
    (emitSegs segs i).2 = i + (sIdx (emitSegs segs i).1).length ∧
    sIdx (emitSegs segs i).1 = List.range' i (sIdx (emitSegs segs i).1).length ∧
    (∀ j s, Token.sentence j s ∈ (emitSegs segs i).1 → s ≠ []) := by
  induction segs with
  | nil => intro i; simp [emitSegs, sIdx]
  | cons seg rest ih =>
    intro i
    by_cases h : trimStr seg = []
    · simpa [emitSegs, h] using ih i
    · have hr := ih (i + 1)
      simp only [emitSegs, if_neg h]
      refine ⟨?_, ?_, ?_⟩
      · rw [sIdx_sentence_cons, List.length_cons]
        have h1 := hr.1
        omega
      · rw [sIdx_sentence_cons, List.length_cons, List.range'_succ]
        exact congrArg (List.cons i) hr.2.1
      · intro j s hmem
        rcases List.mem_cons.mp hmem with heq | hmem2
        · injection heq with h1 h2
          rw [h2]
          exact h
        · exact hr.2.2 j s hmem2

/-- Specification of `sentenceLoop`: same shape as `emitSegs_spec`. -/
lemma sentenceLoop_spec (raw : List Str) : ∀ i : Nat,
    (sentenceLoop raw i).2 = i + (sIdx (sentenceLoop raw i).1).length ∧
    sIdx (sentenceLoop raw i).1 = List.range' i (sIdx (sentenceLoop raw i).1).length ∧
    (∀ j s, Token.sentence j s ∈ (sentenceLoop raw i).1 → s ≠ []) := by
  induction raw with
  | nil => intro i; simp [sentenceLoop, sIdx]
  | cons r rest ih =>
    intro i
    by_cases h : trimStr r = [] || (trimStr r).length < 2
    · simpa [sentenceLoop, h] using ih i
    · have he := emitSegs_spec (splitLongSentence (trimStr r)) i
      have hr := ih (emitSegs (splitLongSentence (trimStr r)) i).2
      simp only [sentenceLoop, h, Bool.false_eq_true, if_false]
      have hb : sIdx (sentenceLoop rest (emitSegs (splitLongSentence (trimStr r)) i).2).1 =
          List.range' (i + (sIdx (emitSegs (splitLongSentence (trimStr r)) i).1).length)
            (sIdx (sentenceLoop rest (emitSegs (splitLongSentence (trimStr r)) i).2).1).length := by
        rw [← he.1]
        exact hr.2.1
      refine ⟨?_, ?_, ?_⟩
      · rw [sIdx_append, List.length_append]
        have h1 := hr.1
        have h2 := he.1
        omega
      · rw [sIdx_append]
        exact range'_glue _ _ i he.2.1 hb
      · intro j s hmem
        rcases List.mem_append.mp hmem with hmem2 | hmem2
        · exact he.2.2 j s hmem2
        · exact hr.2.2 j s hmem2

/-- Specification of `paragraphTokens` on a non-empty paragraph. -/
lemma paragraphTokens_spec (paragraph : Str) (hp : paragraph ≠ []) (i : Nat) :
    (paragraphTokens paragraph i).2 =
      i + (sIdx (paragraphTokens paragraph i).1).length ∧
    sIdx (paragraphTokens paragraph i).1 =
      List.range' i (sIdx (paragraphTokens paragraph i).1).length ∧
    (∀ j s, Token.sentence j s ∈ (paragraphTokens paragraph i).1 → s ≠ []) := by
  by_cases hh : isHeadingStr paragraph
  · simp only [paragraphTokens, hh, if_true]
    refine ⟨by simp [sIdx], by simp [sIdx], ?_⟩
    intro j s hmem
    rcases List.mem_cons.mp hmem with heq | hmem2
    · injection heq with h1 h2
      rw [h2]
      exact hp
    · simp at hmem2
  · by_cases hr : splitBySentenceEnders paragraph = []
    · simp only [paragraphTokens, hh, Bool.false_eq_true, if_false, hr, if_true]
      exact emitSegs_spec (splitLongSentence paragraph) i
    · simp only [paragraphTokens, hh, Bool.false_eq_true, if_false, hr, if_neg hr]
      exact sentenceLoop_spec (splitBySentenceEnders paragraph) i

/-- Specification of the paragraph loop. -/
lemma tokenizeParas_spec (ps : List Str) : ∀ i : Nat,
    sIdx (tokenizeParas ps i) = List.range' i (sIdx (tokenizeParas ps i)).length ∧
    (∀ j s, Token.sentence j s ∈ tokenizeParas ps i → s ≠ []) := by
  induction ps with
  | nil => intro i; simp [tokenizeParas, sIdx]
  | cons p rest ih =>
    intro i
    by_cases h : trimStr p = []
    · simpa [tokenizeParas, h] using ih i
    · have hpt := paragraphTokens_spec (trimStr p) h i
      have hih := ih (paragraphTokens (trimStr p) i).2
      simp only [tokenizeParas, if_neg h]
      have hsep : sIdx (if rest = [] then ([] : List Token) else [Token.sep ['\n', '\n']]) =
          ([] : List Nat) := by
        split <;> simp [sIdx]
      have hb : sIdx (tokenizeParas rest (paragraphTokens (trimStr p) i).2) =
          List.range' (i + (sIdx (paragraphTokens (trimStr p) i).1).length)
            (sIdx (tokenizeParas rest (paragraphTokens (trimStr p) i).2)).length := by
        rw [← hpt.1]
        exact hih.1
      constructor
      · rw [sIdx_append, sIdx_append, hsep, List.append_nil]
        exact range'_glue _ _ i hpt.2.1 hb
      · intro j s hmem
        rcases List.mem_append.mp hmem with hmem2 | hmem2
        · rcases List.mem_append.mp hmem2 with hmem3 | hmem3
          · exact hpt.2.2 j s hmem3
          · revert hmem3
            split <;> simp
        · exact hih.2 j s hmem2

/-- C9: within a single `tokenizeDocument` call the sentence-token
indices, in emission order, are exactly `0, 1, 2, …` (start at zero,
strictly increasing, no gaps — the k-th sentence token has index k),
and no sentence token has empty text. -/
theorem c9_tokenizer_indices_gapless (text : Str) :
    sIdx (tokenizeDocument text) =
      List.range (sIdx (tokenizeDocument text)).length ∧
    (∀ j s, Token.sentence j s ∈ tokenizeDocument text → s ≠ []) := by
  have h := tokenizeParas_spec (splitParas (replCR (replCRLF text))) 0
  exact ⟨by rw [List.range_eq_range']; exact h.1, h.2⟩

/-! ### Degradation-chain invariant (C10) -/

lemma degradeBatchSize_mem (s : Nat) : degradeBatchSize s ∈ DEGRADATION_CHAIN := by
  by_cases h20 : s = 20
  · subst h20; decide
  by_cases h10 : s = 10
  · subst h10; decide
  by_cases h5 : s = 5
  · subst h5; decide
  by_cases h1 : s = 1
  · subst h1; decide
  have hidx : jsIndexOf DEGRADATION_CHAIN s = -1 := by
    simp [jsIndexOf, jsIndexOfAux, DEGRADATION_CHAIN,
      Ne.symm h20, Ne.symm h10, Ne.symm h5, Ne.symm h1]
  simp only [degradeBatchSize, hidx, if_pos rfl]
  rcases hf : DEGRADATION_CHAIN.find? (fun size => size < s) with _ | v
  · decide
  · exact List.mem_of_find?_eq_some hf

lemma adjust_mem (d : Nat) (st : BatchState)
    (h : st.currentBatchSize ∈ DEGRADATION_CHAIN) :
    (adjustBatchSizeOnSuccess d st).currentBatchSize ∈ DEGRADATION_CHAIN := by
  obtain ⟨n, cf, rs, fs⟩ := st
  simp only [adjustBatchSizeOnSuccess]
  split_ifs with hslow hfast hcf hidx
  · exact degradeBatchSize_mem _
  · simp only at h ⊢
    revert hidx
    simp only [DEGRADATION_CHAIN, List.mem_cons, List.not_mem_nil, or_false] at h
    rcases h with rfl | rfl | rfl | rfl <;> intro hidx <;> decide
  · exact h
  · exact h
  · exact h

lemma singleFallback_cbs (oracle : Nat → CallResult) (vi : List Int)
    (sentences : List SentenceTok) : ∀ st log,
    (singleFallback oracle vi sentences st log).1.currentBatchSize =
      st.currentBatchSize := by
  induction sentences with
  | nil => intro st log; simp [singleFallback]
  | cons s rest ih =>
    intro st log
    rcases ho : oracle log.calls with _ | _ <;>
      simp only [singleFallback, ho] <;> rw [ih]

lemma processBatchF_mem (oracle : Nat → CallResult) (vi : List Int) :
    ∀ (fuel : Nat) (batch : List SentenceTok) (rc : Nat) (st : BatchState)
      (log : SchedLog), st.currentBatchSize ∈ DEGRADATION_CHAIN →
      (processBatchF oracle vi fuel batch rc st log).1.currentBatchSize ∈
        DEGRADATION_CHAIN := by
  intro fuel
  induction fuel with
  | zero => intro batch rc st log h; simpa [processBatchF] using h
  | succ fuel ih =>
    intro batch rc st log h
    by_cases hb : batch = []
    · simpa [processBatchF, hb] using h
    · rcases ho : oracle log.calls with ⟨reps, dur⟩ | _
      · simp only [processBatchF, if_neg hb, ho]
        exact adjust_mem dur _ h
      · simp only [processBatchF, if_neg hb, ho]
        split_ifs with hret hone
        · exact ih _ _ _ _ h
        · simpa using h
        · rw [singleFallback_cbs]
          exact h

lemma chunkLoopF_mem (oracle : Nat → CallResult) (vi : List Int)
    (toks : List SentenceTok) :
    ∀ (fuel ci : Nat) (st : BatchState) (log : SchedLog),
      st.currentBatchSize ∈ DEGRADATION_CHAIN →
      (chunkLoopF oracle vi toks fuel ci st log).1.currentBatchSize ∈
        DEGRADATION_CHAIN := by
  intro fuel
  induction fuel with
  | zero => intro ci st log h; simpa [chunkLoopF] using h
  | succ fuel ih =>
    intro ci st log h
    by_cases hci : ci < toks.length
    · by_cases hb : (toks.drop ci).take st.currentBatchSize = ([] : List SentenceTok)
      · simpa [chunkLoopF, hci, hb] using h
      · simp only [chunkLoopF, if_pos hci, if_neg hb]
        exact ih _ _ _ (processBatchF_mem oracle vi _ _ _ _ _ h)
    · simpa [chunkLoopF, hci] using h

/-- C10: the scheduler's batch size always stays on the degradation
chain `[20, 10, 5, 1]`: it starts at 20 (which is on the chain), every
degradation step moves to the next smaller chain element, every
upgrade step moves to the next larger chain element, every success-path
adjustment and the whole per-chunk loop preserve chain membership (for
every oracle), and every chain element is strictly below the configured
maximum batch size 25 — so 25 is never reached. -/
theorem c10_batch_size_chain_invariant :
    (INITIAL_BATCH_SIZE = 20 ∧ INITIAL_BATCH_SIZE ∈ DEGRADATION_CHAIN) ∧
    (degradeBatchSize 20 = 10 ∧ degradeBatchSize 10 = 5 ∧
      degradeBatchSize 5 = 1 ∧ degradeBatchSize 1 = 1) ∧
    ((adjustBatchSizeOnSuccess 0
        { currentBatchSize := 10, consecutiveFastCalls := 2,
          allReplacements := [], failedIndices := [] }).currentBatchSize = 20 ∧
      (adjustBatchSizeOnSuccess 0
        { currentBatchSize := 5, consecutiveFastCalls := 2,
          allReplacements := [], failedIndices := [] }).currentBatchSize = 10 ∧
      (adjustBatchSizeOnSuccess 0
        { currentBatchSize := 1, consecutiveFastCalls := 2,
          allReplacements := [], failedIndices := [] }).currentBatchSize = 5) ∧
    (∀ s : Nat, degradeBatchSize s ∈ DEGRADATION_CHAIN) ∧
    (∀ (d : Nat) (st : BatchState), st.currentBatchSize ∈ DEGRADATION_CHAIN →
      (adjustBatchSizeOnSuccess d st).currentBatchSize ∈ DEGRADATION_CHAIN) ∧
    (∀ (oracle : Nat → CallResult) (toks : List SentenceTok),
      (runChunkScheduler oracle toks).1.currentBatchSize ∈ DEGRADATION_CHAIN) ∧
    (∀ s ∈ DEGRADATION_CHAIN, s < MAX_BATCH_SIZE) := by
  refine ⟨by decide, by decide, by decide, degradeBatchSize_mem, adjust_mem, ?_, by decide⟩
  intro oracle toks
  exact chunkLoopF_mem oracle _ toks _ _ _ _ (by decide)

/-- Witness for C10: the scheduler's final batch size on a concrete
always-failing run over two tokens is on the chain, via the theorem's
loop-invariant conjunct, and chain elements are below 25 at the chain
member 20. -/
theorem c10_batch_size_chain_invariant_witness :
    (runChunkScheduler (fun _ => CallResult.failure)
      [⟨0, ['a']⟩, ⟨1, ['b']⟩]).1.currentBatchSize ∈ DEGRADATION_CHAIN ∧
    20 < MAX_BATCH_SIZE :=
  ⟨c10_batch_size_chain_invariant.2.2.2.2.2.1 (fun _ => CallResult.failure)
      [⟨0, ['a']⟩, ⟨1, ['b']⟩],
    c10_batch_size_chain_invariant.2.2.2.2.2.2 20 (by decide)⟩

/-! ### Scheduler coverage bugs (C1, C3) -/

/-- C1 (failing run): with two sentence tokens, a first call that fails
and a second call that succeeds, the retry loop resubmits only the
first half (token 0) and returns on its success: token 1 is in no
successful submission of the trace and is not recorded as failed — it
is silently skipped, contradicting the claim (and the source's own
comment that the second half is deferred to single-sentence mode). -/
theorem c1_batch_retry_skips_remainder :
    (runChunkScheduler
        (fun n => if n = 0 then CallResult.failure else CallResult.success [] 1000)
        [⟨0, ['a']⟩, ⟨1, ['b']⟩]).2.trace = [([0, 1], false), ([0], true)] ∧
    (runChunkScheduler
        (fun n => if n = 0 then CallResult.failure else CallResult.success [] 1000)
        [⟨0, ['a']⟩, ⟨1, ['b']⟩]).1.failedIndices = [] ∧
    (∀ c ∈ (runChunkScheduler
        (fun n => if n = 0 then CallResult.failure else CallResult.success [] 1000)
        [⟨0, ['a']⟩, ⟨1, ['b']⟩]).2.trace, c.2 = true → (1 : Int) ∉ c.1) := by
  refine ⟨by decide, by decide, by decide⟩

/-- C3 (failing run): with two sentence tokens and an always-failing
service the scheduler terminates (the model is a total function), but
it records only one failed index — the half dropped by the retry
split is never recorded — so the failed-index count is 1, not N = 2. -/
theorem c3_always_fail_failed_count :
    (runChunkScheduler (fun _ => CallResult.failure)
        [⟨0, ['a']⟩, ⟨1, ['b']⟩]).1.failedIndices = [0] ∧
    ((runChunkScheduler (fun _ => CallResult.failure)
        [⟨0, ['a']⟩, ⟨1, ['b']⟩]).1.failedIndices).length ≠ 2 := by
  refine ⟨by decide, by decide⟩

/-! ### Chunk concatenation (C4) -/

/-- Join a list of strings with a separator (`Array.join` /
concatenation with the chunk-introduced `"\n\n"` separators). -/
def joinSep (sep : Str) : List Str → Str
  | [] => []
  | [x] => x
  | x :: y :: rest => x ++ sep ++ joinSep sep (y :: rest)

lemma joinSep_cons (sep x : Str) (l : List Str) (h : l ≠ []) :
    joinSep sep (x :: l) = x ++ sep ++ joinSep sep l := by
  cases l with
  | nil => exact absurd rfl h
  | cons y rest => rfl

lemma joinSep_merge_head (sep a b : Str) (l : List Str) :
    joinSep sep ((a ++ sep ++ b) :: l) = joinSep sep (a :: b :: l) := by
  cases l with
  | nil => simp [joinSep]
  | cons x rest => simp [joinSep, List.append_assoc]

lemma trimStr_eq_nil_iff (s : Str) : trimStr s = [] ↔ ∀ c ∈ s, isJsWS c := by
  unfold trimStr
  rw [List.reverse_eq_nil_iff, List.dropWhile_eq_nil_iff]
  constructor
  · intro h c hc
    by_cases hmem : c ∈ s.dropWhile isJsWS
    · exact h c (by simpa using hmem)
    · have hs := List.takeWhile_append_dropWhile (p := isJsWS) (l := s)
      rw [← hs] at hc
      rcases List.mem_append.mp hc with h1 | h1
      · exact List.mem_takeWhile_imp h1
      · exact absurd h1 hmem
  · intro h c hc
    exact h c ((List.dropWhile_sublist isJsWS).subset (List.mem_reverse.mp hc))

lemma trimStr_append_ne_nil (s t : Str) (h : trimStr s ≠ []) :
    trimStr (s ++ t) ≠ [] := by
  intro hc
  apply h
  rw [trimStr_eq_nil_iff] at hc ⊢
  intro c hcs
  exact hc c (List.mem_append_left _ hcs)

lemma mergeAux_ne_nil (temp : Chunk) (rest : List Chunk) : mergeAux temp rest ≠ [] := by
  induction rest generalizing temp with
  | nil => simp [mergeAux]
  | cons c rest ih =>
    simp only [mergeAux]
    split
    · exact ih _
    · simp

lemma mergeAux_join (temp : Chunk) (rest : List Chunk) :
    joinSep sepNN ((mergeAux temp rest).map (fun c => c.content)) =
      joinSep sepNN (temp.content :: rest.map (fun c => c.content)) := by
  induction rest generalizing temp with
  | nil => rfl
  | cons c rest ih =>
    simp only [mergeAux]
    split
    · rw [ih]
      exact joinSep_merge_head sepNN temp.content c.content (rest.map (fun c => c.content))
    · have hne : (mergeAux c rest).map (fun c => c.content) ≠ [] := by
        simpa using mergeAux_ne_nil c rest
      simp only [List.map_cons]
      rw [joinSep_cons _ _ _ hne, ih]
      rfl

lemma mergeAux_content_ne_nil (temp : Chunk) (rest : List Chunk)
    (htemp : trimStr temp.content ≠ [])
    (hrest : ∀ c ∈ rest, trimStr c.content ≠ []) :
    ∀ c ∈ mergeAux temp rest, trimStr c.content ≠ [] := by
  induction rest generalizing temp with
  | nil =>
    intro c hc
    simp only [mergeAux, List.mem_singleton] at hc
    rw [hc]
    exact htemp
  | cons c2 rest ih =>
    intro c hc
    simp only [mergeAux] at hc
    split at hc
    · exact ih _ (trimStr_append_ne_nil _ _ (trimStr_append_ne_nil _ _ htemp))
        (fun x hx => hrest x (by simp [hx])) c hc
    · rcases List.mem_cons.mp hc with rfl | hc2
      · exact htemp
      · exact ih c2 (hrest c2 (by simp)) (fun x hx => hrest x (by simp [hx])) c hc2

/-- C4 (amended): the merge pass never loses or reorders content —
joining the contents of `mergeSmallChunks chunks` with the
chunk-introduced `"\n\n"` separators gives exactly the join of the
input contents, whenever no input chunk is whitespace-only. -/
theorem c4_merge_preserves_content (chunks : List Chunk)
    (h : ∀ c ∈ chunks, trimStr c.content ≠ []) :
    joinSep sepNN ((mergeSmallChunks chunks).map (fun c => c.content)) =
      joinSep sepNN (chunks.map (fun c => c.content)) := by
  match chunks with
  | [] => rfl
  | [c] => rfl
  | c :: c2 :: rest =>
    show joinSep sepNN (((mergeAux c (c2 :: rest)).filter
        (fun ch => (trimStr ch.content).length > 0)).map (fun ch => ch.content)) = _
    have hall : ∀ x ∈ mergeAux c (c2 :: rest), trimStr x.content ≠ [] :=
      mergeAux_content_ne_nil c (c2 :: rest) (h c (by simp))
        (fun x hx => h x (by simp [hx]))
    have hfil : (mergeAux c (c2 :: rest)).filter
        (fun ch => (trimStr ch.content).length > 0) = mergeAux c (c2 :: rest) := by
      rw [List.filter_eq_self]
      intro x hx
      simpa [List.length_pos] using hall x hx
    rw [hfil]
    exact mergeAux_join c (c2 :: rest)

/-- Witness for C4 at two concrete non-whitespace chunks. -/
theorem c4_merge_preserves_content_witness :
    (∀ c ∈ [Chunk.mk ("A".toList) ("A".toList) ("aaa".toList),
            Chunk.mk ("B".toList) ("B".toList) ("bbb".toList)],
        trimStr c.content ≠ []) ∧
    joinSep sepNN ((mergeSmallChunks
        [Chunk.mk ("A".toList) ("A".toList) ("aaa".toList),
         Chunk.mk ("B".toList) ("B".toList) ("bbb".toList)]).map (fun c => c.content)) =
      joinSep sepNN ([Chunk.mk ("A".toList) ("A".toList) ("aaa".toList),
         Chunk.mk ("B".toList) ("B".toList) ("bbb".toList)].map (fun c => c.content)) :=
  ⟨by decide, c4_merge_preserves_content _ (by decide)⟩

/-- C4 (counterexample): on the draft
`"Preamble\n\n# A\n\naaa\n\n# B\n\nbbb"` heading detection fires, the
heading lines become titles and the preamble before the first heading
is dropped, so the join of the chunk contents after merging is
`"aaa\n\nbbb"` and does not reconstruct the normalized draft. -/
theorem c4_chunk_concat_counterexample :
    joinSep sepNN ((mergeSmallChunks (chunkDocument
        ("Preamble\n\n# A\n\naaa\n\n# B\n\nbbb".toList))).map (fun c => c.content)) ≠
      normalizeText ("Preamble\n\n# A\n\naaa\n\n# B\n\nbbb".toList) := by
  decide

end PaperMirror